import Mathlib

/-!
Shallow embedding of the Raft core data structures of RethinkDB
(`clustering/generic/raft_core.hpp`): the cluster configurations
`raft_config_t` and `raft_complex_config_t`, the log slice `raft_log_t`,
and the member timing constants.

Modelling choices:
* `machine_id_t` (a UUID in the source) is modelled as `Nat`; only equality
  is used by the embedded code.
* `std::set<machine_id_t>` is modelled as `Finset Nat`; `set.count(m)` is
  membership, and the vote-counting loop of `is_quorum` is the cardinality
  of the subset of `members` that lies in `voting_members`.
* The `std::deque` of log entries is a `List`; `deque::erase` of a prefix or
  suffix is `List.drop` / `List.take`.
* `raft_term_t` and `raft_log_index_t` are `uint64_t` typedefs in the source;
  they are
  modelled as `Nat` (the embedded operations never subtract below zero under
  their guards, and the sizes involved cannot reach `2^64`).
* A `guarantee` failure (a crash) and an out-of-bounds container access are
  modelled as `Option.none`; mutating methods return the new value.
-/

/-- `machine_id_t` (a UUID in the source): modelled as `Nat`. -/
abbrev machine_id_t : Type := Nat

/-- `raft_config_t`: the set of voting members and the set of non-voting
members of the Raft cluster. -/
structure raft_config_t where
  voting_members : Finset machine_id_t
  non_voting_members : Finset machine_id_t
deriving DecidableEq

/-- `raft_config_t::get_all_members`: all members, voting and non-voting. -/
def raft_config_t.get_all_members (c : raft_config_t) : Finset machine_id_t :=
  c.voting_members ∪ c.non_voting_members

/-- `raft_config_t::is_quorum`: counts, for each element of `members`, whether
it occurs in `voting_members` (`votes += voting_members.count(m)`), and returns
`votes * 2 > voting_members.size()`. -/
def raft_config_t.is_quorum (c : raft_config_t) (members : Finset machine_id_t) : Bool :=
  let votes := (members.filter (fun m => m ∈ c.voting_members)).card
  decide (votes * 2 > c.voting_members.card)

/-- `raft_config_t::is_valid_leader`: `voting_members.count(member) == 1`. -/
def raft_config_t.is_valid_leader (c : raft_config_t) (member : machine_id_t) : Bool :=
  decide (member ∈ c.voting_members)

/-- `raft_complex_config_t`: either a single configuration (`new_config` empty)
or a joint consensus of an old configuration `config` and a `new_config`. -/
structure raft_complex_config_t where
  config : raft_config_t
  new_config : Option raft_config_t
deriving DecidableEq

/-- `raft_complex_config_t::is_joint_consensus`: whether `new_config` holds a
value. -/
def raft_complex_config_t.is_joint_consensus (cc : raft_complex_config_t) : Bool :=
  cc.new_config.isSome

/-- `raft_complex_config_t::get_all_members`: the members of `config`, plus in
joint consensus the members of `new_config`. -/
def raft_complex_config_t.get_all_members (cc : raft_complex_config_t) : Finset machine_id_t :=
  match cc.new_config with
  | some nc => cc.config.get_all_members ∪ nc.get_all_members
  | none => cc.config.get_all_members

/-- `raft_complex_config_t::is_quorum`: in joint consensus, separate majorities
of both the old and the new configuration; otherwise a majority of `config`. -/
def raft_complex_config_t.is_quorum (cc : raft_complex_config_t)
    (members : Finset machine_id_t) : Bool :=
  match cc.new_config with
  | some nc => cc.config.is_quorum members && nc.is_quorum members
  | none => cc.config.is_quorum members

/-- `raft_complex_config_t::is_valid_leader`: a valid leader of `config`, or in
joint consensus a valid leader of `new_config`. -/
def raft_complex_config_t.is_valid_leader (cc : raft_complex_config_t)
    (member : machine_id_t) : Bool :=
  cc.config.is_valid_leader member ||
    (match cc.new_config with
     | some nc => nc.is_valid_leader member
     | none => false)

/-- `raft_log_entry_t::type_t`: the three kinds of log entry. -/
inductive raft_log_entry_type_t where
  | regular
  | configuration
  | noop
deriving DecidableEq

/-- `raft_log_entry_t<state_t>`: one entry of the Raft log, parametrised by the
state machine's `change_t`. -/
structure raft_log_entry_t (change_t : Type) where
  type : raft_log_entry_type_t
  term : Nat
  change : Option change_t
  configuration : Option raft_complex_config_t
deriving DecidableEq

/-- `raft_log_t<state_t>`: a slice of the Raft log, anchored at
`prev_index` / `prev_term`. -/
structure raft_log_t (change_t : Type) where
  prev_index : Nat
  prev_term : Nat
  entries : List (raft_log_entry_t change_t)
deriving DecidableEq

/-- `raft_log_t::get_latest_index`: `prev_index + entries.size()`. -/
def raft_log_t.get_latest_index {change_t : Type} (log : raft_log_t change_t) :
    Nat :=
  log.prev_index + log.entries.length

/-- `raft_log_t::get_entry_ref`: guards `index > prev_index` and
`index <= get_latest_index()`, then reads `entries[index - prev_index - 1]`.
A guard failure or an out-of-bounds read is `none`. -/
def raft_log_t.get_entry_ref {change_t : Type} (log : raft_log_t change_t)
    (index : Nat) : Option (raft_log_entry_t change_t) :=
  if log.prev_index < index ∧ index ≤ log.get_latest_index then
    log.entries.get? (index - log.prev_index - 1)
  else none

/-- `raft_log_t::get_entry_term`: guards `index >= prev_index` and
`index <= get_latest_index()`; returns `prev_term` at `prev_index` and
otherwise `get_entry_ref(index).term`. -/
def raft_log_t.get_entry_term {change_t : Type} (log : raft_log_t change_t)
    (index : Nat) : Option Nat :=
  if log.prev_index ≤ index ∧ index ≤ log.get_latest_index then
    if index = log.prev_index then
      some log.prev_term
    else
      (log.get_entry_ref index).map raft_log_entry_t.term
  else none

/-- `raft_log_t::delete_entries_from`: guards `index > prev_index` and
`index <= get_latest_index()`, then erases `entries` from position
`index - prev_index - 1` to the end. -/
def raft_log_t.delete_entries_from {change_t : Type} (log : raft_log_t change_t)
    (index : Nat) : Option (raft_log_t change_t) :=
  if log.prev_index < index ∧ index ≤ log.get_latest_index then
    some { log with entries := log.entries.take (index - log.prev_index - 1) }
  else none

/-- `raft_log_t::delete_entries_to`: guards `index > prev_index` and
`index <= get_latest_index()`, reads `get_entry_term(index)`, erases the first
`index - prev_index` entries, and re-anchors `prev_index` / `prev_term` at
`index`. -/
def raft_log_t.delete_entries_to {change_t : Type} (log : raft_log_t change_t)
    (index : Nat) : Option (raft_log_t change_t) :=
  if log.prev_index < index ∧ index ≤ log.get_latest_index then
    (log.get_entry_term index).map (fun index_term =>
      { prev_index := index
        prev_term := index_term
        entries := log.entries.drop (index - log.prev_index) })
  else none

/-- `raft_log_t::append`: pushes the entry onto the back of `entries`. -/
def raft_log_t.append {change_t : Type} (log : raft_log_t change_t)
    (entry : raft_log_entry_t change_t) : raft_log_t change_t :=
  { log with entries := log.entries ++ [entry] }

/-- `raft_member_t::election_timeout_min_ms`. -/
def raft_member_t.election_timeout_min_ms : Int := 1000

/-- `raft_member_t::election_timeout_max_ms`. -/
def raft_member_t.election_timeout_max_ms : Int := 2000

/-- `raft_member_t::heartbeat_interval_ms`. -/
def raft_member_t.heartbeat_interval_ms : Int := 500

/-- Spec-side majority predicate: the number of voting members contained in
`S` is strictly more than half of the size of the voting set. -/
def majority_spec (voting S : Finset machine_id_t) : Prop :=
  2 * (S ∩ voting).card > voting.card

lemma raft_config_t.is_quorum_iff (c : raft_config_t) (S : Finset machine_id_t) :
    c.is_quorum S = true ↔ majority_spec c.voting_members S := by
  simp only [raft_config_t.is_quorum, majority_spec, decide_eq_true_eq,
    Finset.filter_mem_eq_inter]
  omega

/-- Example entry over `change_t = Nat`, used by closed witness statements. -/
def entry_ex (t : Nat) : raft_log_entry_t Nat :=
  { type := raft_log_entry_type_t.regular, term := t, change := some 0, configuration := none }

/-- Example log slice over `change_t = Nat`: anchored at index 5 / term 1, with
entries at indices 6, 7, 8 of terms 2, 2, 3. -/
def log_ex : raft_log_t Nat :=
  { prev_index := 5, prev_term := 1, entries := [entry_ex 2, entry_ex 2, entry_ex 3] }

/-- Example complex configuration: single configuration with voting members
`{1, 2, 3}` and no non-voting members. -/
def cc_ex : raft_complex_config_t :=
  { config := { voting_members := {1, 2, 3}, non_voting_members := ∅ }, new_config := none }

lemma get_entry_term_isSome {change_t : Type} (log : raft_log_t change_t)
    (i : Nat) (h1 : log.prev_index ≤ i) (h2 : i ≤ log.get_latest_index) :
    ∃ t, log.get_entry_term i = some t := by
  by_cases hip : i = log.prev_index
  · subst hip
    exact ⟨log.prev_term, by simp [raft_log_t.get_entry_term, h2]⟩
  · have hpi : log.prev_index < i := Nat.lt_of_le_of_ne h1 (Ne.symm hip)
    have hbound : i - log.prev_index - 1 < log.entries.length := by
      simp only [raft_log_t.get_latest_index] at h2
      omega
    refine ⟨(log.entries.get ⟨i - log.prev_index - 1, hbound⟩).term, ?_⟩
    simp only [raft_log_t.get_entry_term, raft_log_t.get_entry_ref]
    rw [if_pos ⟨h1, h2⟩, if_neg hip, if_pos ⟨hpi, h2⟩, List.get?_eq_get hbound]
    rfl

lemma get_entry_ref_under_guards {change_t : Type} (log : raft_log_t change_t)
    (i : Nat) (h1 : log.prev_index < i) (h2 : i ≤ log.get_latest_index) :
    log.get_entry_ref i = log.entries.get? (i - log.prev_index - 1) := by
  simp [raft_log_t.get_entry_ref, h1, h2]

lemma config_quorum_overlap (c : raft_config_t) (S T : Finset machine_id_t)
    (hS : c.is_quorum S = true) (hT : c.is_quorum T = true) :
    ∃ m, m ∈ S ∧ m ∈ T ∧ m ∈ c.voting_members := by
  rw [raft_config_t.is_quorum_iff] at hS hT
  unfold majority_spec at hS hT
  have hsub : (S ∩ c.voting_members) ∪ (T ∩ c.voting_members) ⊆ c.voting_members := by
    intro x hx
    rcases Finset.mem_union.mp hx with h | h
    · exact (Finset.mem_inter.mp h).2
    · exact (Finset.mem_inter.mp h).2
  have hcard := Finset.card_le_card hsub
  have hui := Finset.card_union_add_card_inter (S ∩ c.voting_members) (T ∩ c.voting_members)
  have hpos : 0 < ((S ∩ c.voting_members) ∩ (T ∩ c.voting_members)).card := by omega
  obtain ⟨m, hm⟩ := Finset.card_pos.mp hpos
  simp only [Finset.mem_inter] at hm
  exact ⟨m, hm.1.1, hm.2.1, hm.1.2⟩

lemma complex_quorum_config {cc : raft_complex_config_t} {S : Finset machine_id_t}
    (h : cc.is_quorum S = true) : cc.config.is_quorum S = true := by
  unfold raft_complex_config_t.is_quorum at h
  cases hnc : cc.new_config <;> rw [hnc] at h <;> simp_all

/-- C1: `is_quorum(S)` is true iff strictly more than half of the voting set is
contained in `S` (so non-voting members of `S` never contribute), with separate
strict majorities of the old and new voting sets in joint consensus, and only
of the single voting set otherwise. -/
theorem is_quorum_strict_majority :
    (∀ (c : raft_config_t) (S : Finset machine_id_t),
      c.is_quorum S = true ↔ majority_spec c.voting_members S) ∧
    (∀ (old nc : raft_config_t) (S : Finset machine_id_t),
      (raft_complex_config_t.mk old (some nc)).is_quorum S = true ↔
        (majority_spec old.voting_members S ∧ majority_spec nc.voting_members S)) ∧
    (∀ (old : raft_config_t) (S : Finset machine_id_t),
      (raft_complex_config_t.mk old none).is_quorum S = true ↔
        majority_spec old.voting_members S) := by
  refine ⟨fun c S => raft_config_t.is_quorum_iff c S, fun old nc S => ?_, fun old S => ?_⟩
  · simp [raft_complex_config_t.is_quorum, raft_config_t.is_quorum_iff]
  · simp [raft_complex_config_t.is_quorum, raft_config_t.is_quorum_iff]

/-- C2: `is_valid_leader(m)` is true for a single configuration iff `m` is in
the voting set, and for a joint-consensus configuration iff `m` is a valid
leader of the old or of the new configuration. -/
theorem is_valid_leader_iff :
    (∀ (c : raft_config_t) (m : machine_id_t),
      c.is_valid_leader m = true ↔ m ∈ c.voting_members) ∧
    (∀ (old : raft_config_t) (m : machine_id_t),
      (raft_complex_config_t.mk old none).is_valid_leader m = true ↔
        old.is_valid_leader m = true) ∧
    (∀ (old nc : raft_config_t) (m : machine_id_t),
      (raft_complex_config_t.mk old (some nc)).is_valid_leader m = true ↔
        (old.is_valid_leader m = true ∨ nc.is_valid_leader m = true)) := by
  refine ⟨fun c m => ?_, fun old m => ?_, fun old nc m => ?_⟩
  · simp [raft_config_t.is_valid_leader]
  · simp [raft_complex_config_t.is_valid_leader]
  · simp [raft_complex_config_t.is_valid_leader]

/-- C6: `get_latest_index()` is `prev_index` plus the number of stored entries,
and in particular `prev_index` itself for an empty slice. -/
theorem get_latest_index_spec (change_t : Type) :
    (∀ log : raft_log_t change_t,
      log.get_latest_index = log.prev_index + log.entries.length) ∧
    (∀ (p : Nat) (t : Nat),
      (raft_log_t.mk p t ([] : List (raft_log_entry_t change_t))).get_latest_index = p) := by
  exact ⟨fun log => rfl, fun p t => by simp [raft_log_t.get_latest_index]⟩

/-- C7: `get_all_members` is the union of the voting and non-voting sets, and
for a joint-consensus configuration the union of the memberships of the old
and the new configuration. -/
theorem get_all_members_union :
    (∀ c : raft_config_t,
      c.get_all_members = c.voting_members ∪ c.non_voting_members) ∧
    (∀ old nc : raft_config_t,
      (raft_complex_config_t.mk old (some nc)).get_all_members =
        old.get_all_members ∪ nc.get_all_members) := by
  exact ⟨fun c => rfl, fun old nc => rfl⟩

/-- C8: the election-timeout bounds are 1000 ms and 2000 ms, the heartbeat
interval is 500 ms, and the heartbeat interval is strictly smaller than the
minimum election timeout. -/
theorem timing_constants :
    raft_member_t.election_timeout_min_ms = 1000 ∧
    raft_member_t.election_timeout_max_ms = 2000 ∧
    raft_member_t.heartbeat_interval_ms = 500 ∧
    raft_member_t.heartbeat_interval_ms < raft_member_t.election_timeout_min_ms := by
  refine ⟨rfl, rfl, rfl, by decide⟩

/-- C9: any two quorums of the same (simple or joint) configuration intersect
in a voting member of the (old) voting set, and with an empty voting set no
set is ever a quorum. -/
theorem quorum_overlap (cc : raft_complex_config_t) (S T : Finset machine_id_t) :
    (cc.is_quorum S = true → cc.is_quorum T = true →
      ∃ m, m ∈ S ∧ m ∈ T ∧ m ∈ cc.config.voting_members) ∧
    (cc.config.voting_members = ∅ → cc.is_quorum S = false) := by
  constructor
  · intro hS hT
    exact config_quorum_overlap cc.config S T (complex_quorum_config hS)
      (complex_quorum_config hT)
  · intro hv
    have hc : cc.config.is_quorum S = false := by
      simp [raft_config_t.is_quorum, hv]
    unfold raft_complex_config_t.is_quorum
    cases hnc : cc.new_config <;> simp [hc]

/-- Witness for C9 at a concrete configuration and two concrete quorums. -/
theorem quorum_overlap_witness :
    ∃ m, m ∈ ({1, 2} : Finset machine_id_t) ∧ m ∈ ({2, 3} : Finset machine_id_t) ∧
      m ∈ cc_ex.config.voting_members :=
  (quorum_overlap cc_ex {1, 2} {2, 3}).1 (by decide) (by decide)

/-- C5: under `prev_index ≤ i ≤ latest_index` no guard of `get_entry_term`
fires and the entry access is in bounds; the result is `prev_term` at
`prev_index` and the stored entry's term otherwise. -/
theorem get_entry_term_defined (change_t : Type) (log : raft_log_t change_t)
    (i : Nat) (h1 : log.prev_index ≤ i) (h2 : i ≤ log.get_latest_index) :
    ∃ t, log.get_entry_term i = some t ∧
      (i = log.prev_index → t = log.prev_term) ∧
      (log.prev_index < i →
        ∃ e, log.entries.get? (i - log.prev_index - 1) = some e ∧
          log.get_entry_ref i = some e ∧ t = e.term) := by
  by_cases hip : i = log.prev_index
  · subst hip
    exact ⟨log.prev_term, by simp [raft_log_t.get_entry_term, h2], fun _ => rfl,
      fun hlt => absurd hlt (lt_irrefl _)⟩
  · have hpi : log.prev_index < i := Nat.lt_of_le_of_ne h1 (Ne.symm hip)
    have hbound : i - log.prev_index - 1 < log.entries.length := by
      simp only [raft_log_t.get_latest_index] at h2
      omega
    refine ⟨(log.entries.get ⟨i - log.prev_index - 1, hbound⟩).term, ?_,
      fun h => absurd h hip,
      fun _ => ⟨log.entries.get ⟨i - log.prev_index - 1, hbound⟩,
        List.get?_eq_get hbound, ?_, rfl⟩⟩
    · simp only [raft_log_t.get_entry_term, raft_log_t.get_entry_ref]
      rw [if_pos ⟨h1, h2⟩, if_neg hip, if_pos ⟨hpi, h2⟩, List.get?_eq_get hbound]
      rfl
    · simp only [raft_log_t.get_entry_ref]
      rw [if_pos ⟨hpi, h2⟩, List.get?_eq_get hbound]

/-- Witness for C5 at a concrete log slice and index. -/
theorem get_entry_term_defined_witness :
    ∃ t, log_ex.get_entry_term 6 = some t ∧
      (6 = log_ex.prev_index → t = log_ex.prev_term) ∧
      (log_ex.prev_index < 6 →
        ∃ e, log_ex.entries.get? (6 - log_ex.prev_index - 1) = some e ∧
          log_ex.get_entry_ref 6 = some e ∧ t = e.term) :=
  get_entry_term_defined Nat log_ex 6 (by decide) (by decide)

/-- C3: `delete_entries_to(i)` under `prev_index < i ≤ latest_index` succeeds,
re-anchors `prev_index` to `i` and `prev_term` to the previous term at `i`,
keeps `latest_index`, and keeps every entry at an index above `i`. -/
theorem delete_entries_to_spec (change_t : Type) (log : raft_log_t change_t)
    (i : Nat) (h1 : log.prev_index < i) (h2 : i ≤ log.get_latest_index) :
    ∃ log', log.delete_entries_to i = some log' ∧
      log'.prev_index = i ∧
      some log'.prev_term = log.get_entry_term i ∧
      log'.get_latest_index = log.get_latest_index ∧
      ∀ j, i < j → j ≤ log.get_latest_index →
        log'.get_entry_ref j = log.get_entry_ref j := by
  obtain ⟨t, ht⟩ := get_entry_term_isSome log i (Nat.le_of_lt h1) h2
  have hlen : i ≤ log.prev_index + log.entries.length := by
    simpa [raft_log_t.get_latest_index] using h2
  refine ⟨⟨i, t, log.entries.drop (i - log.prev_index)⟩, ?_, rfl, ?_, ?_, ?_⟩
  · simp only [raft_log_t.delete_entries_to]
    rw [if_pos ⟨h1, h2⟩, ht]
    rfl
  · rw [ht]
  · simp only [raft_log_t.get_latest_index, List.length_drop]
    omega
  · intro j hij hj
    have hpj : log.prev_index < j := Nat.lt_trans h1 hij
    have hj2 : j ≤ log.prev_index + log.entries.length := by
      simpa [raft_log_t.get_latest_index] using hj
    simp only [raft_log_t.get_entry_ref, raft_log_t.get_latest_index, List.length_drop]
    split_ifs with hA hB hB
    · rw [List.get?_drop]
      congr 1
      omega
    · exact absurd ⟨hpj, hj2⟩ hB
    · exfalso
      omega
    · rfl

/-- Witness for C3 at a concrete log slice and index. -/
theorem delete_entries_to_spec_witness :
    ∃ log', log_ex.delete_entries_to 7 = some log' ∧
      log'.prev_index = 7 ∧
      some log'.prev_term = log_ex.get_entry_term 7 ∧
      log'.get_latest_index = log_ex.get_latest_index ∧
      ∀ j, 7 < j → j ≤ log_ex.get_latest_index →
        log'.get_entry_ref j = log_ex.get_entry_ref j :=
  delete_entries_to_spec Nat log_ex 7 (by decide) (by decide)

/-- C4: `delete_entries_from(i)` under `prev_index < i ≤ latest_index`
succeeds, makes `latest_index` equal to `i - 1`, and keeps `prev_index`,
`prev_term` and every entry at an index below `i`. -/
theorem delete_entries_from_spec (change_t : Type) (log : raft_log_t change_t)
    (i : Nat) (h1 : log.prev_index < i) (h2 : i ≤ log.get_latest_index) :
    ∃ log', log.delete_entries_from i = some log' ∧
      log'.prev_index = log.prev_index ∧
      log'.prev_term = log.prev_term ∧
      log'.get_latest_index = i - 1 ∧
      ∀ j, log.prev_index < j → j < i →
        log'.get_entry_ref j = log.get_entry_ref j := by
  have hlen : i ≤ log.prev_index + log.entries.length := by
    simpa [raft_log_t.get_latest_index] using h2
  refine ⟨{ log with entries := log.entries.take (i - log.prev_index - 1) },
    ?_, rfl, rfl, ?_, ?_⟩
  · simp only [raft_log_t.delete_entries_from]
    rw [if_pos ⟨h1, h2⟩]
  · simp only [raft_log_t.get_latest_index, List.length_take]
    omega
  · intro j hpj hji
    have hj2 : j ≤ log.prev_index + log.entries.length := by omega
    simp only [raft_log_t.get_entry_ref, raft_log_t.get_latest_index, List.length_take]
    split_ifs with hA hB hB
    · exact List.get?_take (by omega)
    · exact absurd ⟨hpj, hj2⟩ hB
    · exfalso
      omega
    · rfl

/-- Witness for C4 at a concrete log slice and index. -/
theorem delete_entries_from_spec_witness :
    ∃ log', log_ex.delete_entries_from 7 = some log' ∧
      log'.prev_index = log_ex.prev_index ∧
      log'.prev_term = log_ex.prev_term ∧
      log'.get_latest_index = 7 - 1 ∧
      ∀ j, log_ex.prev_index < j → j < 7 →
        log'.get_entry_ref j = log_ex.get_entry_ref j :=
  delete_entries_from_spec Nat log_ex 7 (by decide) (by decide)

/-- C10: after `append(e)`, `latest_index` grows by one and the term at the
new latest index is `e`'s term; deleting from the old `latest_index + 1`
restores the original slice. -/
theorem append_roundtrip (change_t : Type) (log : raft_log_t change_t)
    (entry : raft_log_entry_t change_t) :
    (log.append entry).delete_entries_from (log.get_latest_index + 1) = some log ∧
    (log.append entry).get_latest_index = log.get_latest_index + 1 ∧
    (log.append entry).get_entry_term (log.get_latest_index + 1) = some entry.term := by
  have hidx : log.prev_index + log.entries.length + 1 - log.prev_index - 1 =
      log.entries.length := by omega
  refine ⟨?_, ?_, ?_⟩
  · simp only [raft_log_t.delete_entries_from, raft_log_t.append,
      raft_log_t.get_latest_index, List.length_append, List.length_singleton]
    split_ifs with h
    · rw [hidx, List.take_left]
    · exfalso
      omega
  · simp only [raft_log_t.append, raft_log_t.get_latest_index, List.length_append,
      List.length_singleton]
    omega
  · simp only [raft_log_t.get_entry_term, raft_log_t.get_entry_ref, raft_log_t.append,
      raft_log_t.get_latest_index, List.length_append, List.length_singleton]
    split_ifs with hA hB hC
    · exfalso
      omega
    · rw [hidx, List.get?_concat_length]
      rfl
    · exact absurd ⟨by omega, by omega⟩ hC
    · exact absurd ⟨by omega, by omega⟩ hA
